import Mathlib

/-!
Verification of core properties of the PyOxidizer oxidized importer.

The repository's Python sources (under test/ and the out-of-process bytecode
compiler scripts) are embedded directly.  The Rust implementation of the
binary index codec, the OxidizedFinder, the path-entry sub-finder, the
distribution metadata views and the resource reader is not part of the
source tree given here; those components are modelled from the
specification (sections 3, 4.2, 4.4, 4.5, 4.6), with behaviour pinned by
the repository's own test suite where the tests exercise it
(src/pyembed/src/test/*.py).

Byte strings are modelled as lists of naturals (each intended < 256); the
codec never reinterprets individual bytes, so no bound hypothesis is needed
for the round-trip statements beyond the u32 length fields.
-/

deriving instance DecidableEq for Except

namespace PyOxidizer

/-- A byte string: the payloads, names and serialized buffers of the index. -/
abbrev Bytes := List Nat

/-- Little-endian 4-byte encoding of a u32 length/offset field (wire format
of section 4.2: fixed-width integers, little-endian throughout). -/
def u32le (n : Nat) : Bytes :=
  [n % 256, n / 256 % 256, n / 65536 % 256, n / 16777216 % 256]

/-- Read a little-endian u32 from the front of a buffer. -/
def readU32 : Bytes → Option (Nat × Bytes)
  | a :: b :: c :: d :: rest => some (a + 256 * b + 65536 * c + 16777216 * d, rest)
  | _ => none

/-- Read exactly n bytes from the front of a buffer. -/
def readChunk (n : Nat) (l : Bytes) : Option (Bytes × Bytes) :=
  if n ≤ l.length then some (l.take n, l.drop n) else none

/-- Modelled from the spec: the resource-record flavor enumeration of
section 3 ({none, module, built-in-extension, frozen, native-extension,
shared-library}), with the string names asserted by
test_importer_resources.py::test_resource_set_flavor. -/
inductive ResourceFlavor
  | none
  | module
  | builtin
  | frozen
  | extension
  | sharedLibrary
deriving DecidableEq

/-- Wire byte for a flavor. -/
def ResourceFlavor.toByte : ResourceFlavor → Nat
  | .none => 0
  | .module => 1
  | .builtin => 2
  | .frozen => 3
  | .extension => 4
  | .sharedLibrary => 5

/-- Decode a flavor byte; unknown bytes are a corrupt-index condition. -/
def byteToFlavor : Nat → Option ResourceFlavor
  | 0 => some .none
  | 1 => some .module
  | 2 => some .builtin
  | 3 => some .frozen
  | 4 => some .extension
  | 5 => some .sharedLibrary
  | _ => none

/-- Wire byte for a boolean field. -/
def boolByte (b : Bool) : Nat := if b then 1 else 0

/-- Decode a boolean field byte. -/
def byteToBool : Nat → Option Bool
  | 0 => some false
  | 1 => some true
  | _ => none

/-- Modelled from the spec: the Resource Record of section 3 — a named unit
with a flavor, package flags, and optional byte-sequence payloads.  The
byte-sequence payload fields exercised by the claims and tests are carried
(in-memory source, the three bytecode optimization levels, the extension
module and shared library images, and the relative-path mirrors of source
and bytecode); the mapping-valued fields of section 3 are not modelled. -/
structure OxidizedResource where
  name : Bytes
  flavor : ResourceFlavor
  is_package : Bool
  is_namespace_package : Bool
  in_memory_source : Option Bytes
  in_memory_bytecode : Option Bytes
  in_memory_bytecode_opt1 : Option Bytes
  in_memory_bytecode_opt2 : Option Bytes
  in_memory_extension_module_shared_library : Option Bytes
  in_memory_shared_library : Option Bytes
  relative_path_module_source : Option Bytes
  relative_path_module_bytecode : Option Bytes
deriving DecidableEq

/-- Modelled from the spec: section 4.1 "construct empty" — the
OxidizedResource() constructor, whose freshly constructed value has flavor
"none" and an empty name, as asserted by
test_importer_resources.py::test_resource_constructor. -/
def OxidizedResource.new : OxidizedResource :=
  ⟨[], .none, false, false, none, none, none, none, none, none, none, none⟩

/-- The record's optional payload fields in the writer's fixed canonical
order, each with its wire field tag. -/
def payloadFields (r : OxidizedResource) : List (Nat × Option Bytes) :=
  [(10, r.in_memory_source),
   (11, r.in_memory_bytecode),
   (12, r.in_memory_bytecode_opt1),
   (13, r.in_memory_bytecode_opt2),
   (14, r.in_memory_extension_module_shared_library),
   (15, r.in_memory_shared_library),
   (16, r.relative_path_module_source),
   (17, r.relative_path_module_bytecode)]

/-- Concatenation of the present payloads of a field list, in canonical
order: the bytes this record contributes to the shared blob section. -/
def payloadFlat (fields : List (Nat × Option Bytes)) : Bytes :=
  fields.foldr (fun f acc => f.2.getD [] ++ acc) []

/-- Number of blob bytes contributed by one record. -/
def payloadSize (r : OxidizedResource) : Nat :=
  (payloadFlat (payloadFields r)).length

/-- Byte-lexicographic strict order on byte strings. -/
def lexLt : Bytes → Bytes → Bool
  | _, [] => false
  | [], _ :: _ => true
  | a :: as, b :: bs => if a < b then true else if a = b then lexLt as bs else false

/-- Byte-lexicographic order, reflexive closure. -/
def lexLe (a b : Bytes) : Bool := lexLt a b || a == b

/-- Insert a record into a name-sorted list (writer's canonical sort). -/
def insertRecord (r : OxidizedResource) : List OxidizedResource → List OxidizedResource
  | [] => [r]
  | x :: xs => if lexLe r.name x.name then r :: x :: xs else x :: insertRecord r xs

/-- Sort records by name: the writer emits records in sorted order by name
(section 4.2 writer contract). -/
def sortByName (rs : List OxidizedResource) : List OxidizedResource :=
  rs.foldr insertRecord []

/-- The 7 magic bytes "pyembed" (section 4.2 / section 6). -/
def indexMagic : Bytes := [112, 121, 101, 109, 98, 101, 100]

/-- Blob-section-count header field: the model stores all payloads in a
single shared blob section (zero sections when there are no records). -/
def sectionCount (rs : List OxidizedResource) : Nat :=
  if rs.isEmpty then 0 else 1

/-- Resource-name blob: length-prefixed concatenation of the record names
(section 4.2). -/
def namesBlob : List OxidizedResource → Bytes
  | [] => []
  | r :: rest => u32le r.name.length ++ (r.name ++ namesBlob rest)

/-- Field entries of one record: each present payload becomes a
(field-tag, payload-reference) pair, the reference being a
(blob-section-index, offset, length) triplet (section 4.2); off is the
running offset into the shared blob section. -/
def encodeRefs : Nat → List (Nat × Option Bytes) → Bytes
  | _, [] => []
  | off, (_, Option.none) :: rest => encodeRefs off rest
  | off, (tag, Option.some s) :: rest =>
      tag :: 0 :: (u32le off ++ (u32le s.length ++ encodeRefs (off + s.length) rest))

/-- One record's description: flavor and flag entries, payload references in
canonical order, terminated by the end-of-resource tag 255. -/
def recordEntries (off : Nat) (r : OxidizedResource) : Bytes :=
  1 :: r.flavor.toByte :: 2 :: boolByte r.is_package :: 3 :: boolByte r.is_namespace_package ::
    (encodeRefs off (payloadFields r) ++ [255])

/-- Concatenated record descriptions, threading the blob offset. -/
def allEntries (off : Nat) : List OxidizedResource → Bytes
  | [] => []
  | r :: rest => recordEntries off r ++ allEntries (off + payloadSize r) rest

/-- The shared blob section: all payload bytes in record order. -/
def allPayloads : List OxidizedResource → Bytes
  | [] => []
  | r :: rest => payloadFlat (payloadFields r) ++ allPayloads rest

/-- Total blob size of a record list. -/
def totalPayload (rs : List OxidizedResource) : Nat := (allPayloads rs).length

/-- Modelled from the spec: the Binary Index Codec writer of section 4.2 —
magic "pyembed", version byte 3, blob-section-count u32, resource-count u32,
the resource-name blob, the field-descriptor entries, and the blob section.
Deterministic: records are emitted in sorted order by name, fields in a
fixed canonical order. -/
def serializeRecords (rs : List OxidizedResource) : Bytes :=
  indexMagic ++ 3 ::
    (u32le (sectionCount (sortByName rs)) ++
      (u32le (sortByName rs).length ++
        (namesBlob (sortByName rs) ++
          (allEntries 0 (sortByName rs) ++ allPayloads (sortByName rs)))))

/-- Modelled from the spec: the reader's error taxonomy (section 7):
short-buffer reports the expected byte count, unrecognized-format is a magic
mismatch, unsupported-version an unknown version byte, corrupt-index names
the offending field. -/
inductive IndexError
  | shortBuffer (expected : Nat)
  | unrecognizedFormat
  | unsupportedVersion
  | corruptIndex (field : String)
deriving DecidableEq

/-- Read one length-prefixed resource name. -/
def readName (l : Bytes) : Option (Bytes × Bytes) :=
  match readU32 l with
  | Option.none => none
  | Option.some (n, rest) => readChunk n rest

/-- Read the declared number of resource names. -/
def readNames : Nat → Bytes → Option (List Bytes × Bytes)
  | 0, l => some ([], l)
  | n + 1, l =>
    match readName l with
    | Option.none => none
    | Option.some (name, rest) =>
      match readNames n rest with
      | Option.none => none
      | Option.some (names, rest2) => some (name :: names, rest2)

/-- A parsed record before its payload references are materialized against
the blob section (the reader's lightweight handle of section 4.2). -/
structure RawRecord where
  flavor : ResourceFlavor
  is_package : Bool
  is_namespace_package : Bool
  refs : List (Option (Nat × Nat))
deriving DecidableEq

/-- Read an optional payload reference: if the next byte is this field's
tag, consume the (section, offset, length) triplet; otherwise the field is
absent and nothing is consumed. -/
def readOptRef (tag : Nat) (l : Bytes) : Option (Option (Nat × Nat) × Bytes) :=
  match l with
  | [] => some (none, [])
  | t :: rest =>
    if t = tag then
      match rest with
      | 0 :: rest2 =>
        match readU32 rest2 with
        | Option.none => none
        | Option.some (off, rest3) =>
          match readU32 rest3 with
          | Option.none => none
          | Option.some (len, rest4) => some (some (off, len), rest4)
      | _ => none
    else some (none, t :: rest)

/-- The payload field tags recognized for format version 3, in the writer's
canonical order. -/
def fieldTags : List Nat := [10, 11, 12, 13, 14, 15, 16, 17]

/-- Read the optional payload references for a tag list in order. -/
def readRefs : List Nat → Bytes → Option (List (Option (Nat × Nat)) × Bytes)
  | [], l => some ([], l)
  | tag :: tags, l =>
    match readOptRef tag l with
    | Option.none => none
    | Option.some (r, rest) =>
      match readRefs tags rest with
      | Option.none => none
      | Option.some (rs, rest2) => some (r :: rs, rest2)

/-- Read one record description: flavor entry, the two flag entries, the
payload references, and the end-of-resource tag. -/
def readRaw (l : Bytes) : Option (RawRecord × Bytes) :=
  match l with
  | 1 :: fb :: 2 :: pb :: 3 :: nb :: rest =>
    match byteToFlavor fb, byteToBool pb, byteToBool nb with
    | Option.some fl, Option.some p, Option.some np =>
      match readRefs fieldTags rest with
      | Option.none => none
      | Option.some (refs, rest2) =>
        match rest2 with
        | 255 :: rest3 => some (⟨fl, p, np, refs⟩, rest3)
        | _ => none
    | _, _, _ => none
  | _ => none

/-- Read the declared number of record descriptions. -/
def readRaws : Nat → Bytes → Option (List RawRecord × Bytes)
  | 0, l => some ([], l)
  | n + 1, l =>
    match readRaw l with
    | Option.none => none
    | Option.some (raw, rest) =>
      match readRaws n rest with
      | Option.none => none
      | Option.some (raws, rest2) => some (raw :: raws, rest2)

/-- Materialize one payload reference as a sub-slice of the blob section,
failing on any length that would overrun the buffer (section 4.2 reader
contract). -/
def sliceBlob (blob : Bytes) (off len : Nat) : Option Bytes :=
  if off + len ≤ blob.length then some ((blob.drop off).take len) else none

/-- Materialize an optional payload reference. -/
def materializeRef (blob : Bytes) : Option (Nat × Nat) → Option (Option Bytes)
  | Option.none => some none
  | Option.some (off, len) => (sliceBlob blob off len).map Option.some

/-- Materialize a record's payload references. -/
def materializeRefs (blob : Bytes) : List (Option (Nat × Nat)) → Option (List (Option Bytes))
  | [] => some []
  | r :: rest =>
    match materializeRef blob r, materializeRefs blob rest with
    | Option.some b, Option.some bs => some (b :: bs)
    | _, _ => none

/-- Assemble a full record from its name, parsed scalar fields, and
materialized payloads (one per recognized field tag). -/
def assembleRecord (name : Bytes) (raw : RawRecord) : List (Option Bytes) → Option OxidizedResource
  | [a, b, c, d, e, f, g, h] =>
    some ⟨name, raw.flavor, raw.is_package, raw.is_namespace_package, a, b, c, d, e, f, g, h⟩
  | _ => none

/-- Materialize every parsed record against the blob section. -/
def buildRecords (blob : Bytes) : List Bytes → List RawRecord → Option (List OxidizedResource)
  | [], [] => some []
  | name :: names, raw :: raws =>
    match materializeRefs blob raw.refs with
    | Option.none => none
    | Option.some fields =>
      match assembleRecord name raw fields, buildRecords blob names raws with
      | Option.some r, Option.some rest => some (r :: rest)
      | _, _ => none
  | _, _ => none

/-- Adjacent strict ascent of the name sequence: the canonical sort order
the writer guarantees and the reader checks. -/
def strictSortedNames : List Bytes → Bool
  | [] => true
  | [_] => true
  | a :: b :: rest => lexLt a b && strictSortedNames (b :: rest)

/-- Name validation: every name non-empty and the sequence strictly
ascending (hence unique), per the invariants of sections 3 and 8. -/
def validNames (names : List Bytes) : Bool :=
  names.all (fun n => !n.isEmpty) && strictSortedNames names

/-- Modelled from the spec: the Binary Index Codec reader of section 4.2 —
fails with short-buffer (expected count 8) on a buffer shorter than the
fixed 8-byte header, with unrecognized-format on magic mismatch, with
unsupported-version on an unknown version byte, and with corrupt-index on
any internal inconsistency; otherwise returns the decoded records. -/
def index_bytes (buf : Bytes) : Except IndexError (List OxidizedResource) :=
  if buf.length < 8 then .error (.shortBuffer 8)
  else if buf.take 7 ≠ indexMagic then .error .unrecognizedFormat
  else
    match buf.drop 7 with
    | [] => .error (.shortBuffer 8)
    | v :: rest =>
      if v ≠ 3 then .error .unsupportedVersion
      else
        match readU32 rest with
        | Option.none => .error (.corruptIndex "blob section count")
        | Option.some (_, rest1) =>
          match readU32 rest1 with
          | Option.none => .error (.corruptIndex "resource count")
          | Option.some (count, rest2) =>
            match readNames count rest2 with
            | Option.none => .error (.corruptIndex "resource name")
            | Option.some (names, rest3) =>
              match readRaws count rest3 with
              | Option.none => .error (.corruptIndex "resource field")
              | Option.some (raws, blob) =>
                match buildRecords blob names raws with
                | Option.none => .error (.corruptIndex "field data")
                | Option.some recs =>
                  if validNames names then .ok recs
                  else .error (.corruptIndex "resource name order")

/-- Payload references this record will parse back to, given its starting
offset in the blob section. -/
def refsOf : Nat → List (Nat × Option Bytes) → List (Option (Nat × Nat))
  | _, [] => []
  | off, (_, Option.none) :: rest => none :: refsOf off rest
  | off, (_, Option.some s) :: rest => some (off, s.length) :: refsOf (off + s.length) rest

/-- The raw record a serialized record parses back to. -/
def rawOf (off : Nat) (r : OxidizedResource) : RawRecord :=
  ⟨r.flavor, r.is_package, r.is_namespace_package, refsOf off (payloadFields r)⟩

/-- The raw records a serialized record list parses back to. -/
def rawsOf : Nat → List OxidizedResource → List RawRecord
  | _, [] => []
  | off, r :: rest => rawOf off r :: rawsOf (off + payloadSize r) rest

/-- Field tags appear in strictly ascending order. -/
def tagsAscending : List (Nat × Option Bytes) → Prop
  | [] => True
  | (t, _) :: rest => (∀ p ∈ rest, t < p.1) ∧ tagsAscending rest

/-- Modelled from the spec: the Finder of section 4.4 — holds the indexed
records; the name-keyed lookup map is represented by list search. -/
structure OxidizedFinder where
  resources : List OxidizedResource
deriving DecidableEq

/-- Modelled from the spec: the module-spec value returned by find_spec
(section 4.4); origin is null for in-memory resources. -/
structure ModuleSpec where
  name : Bytes
  is_package : Bool
  origin : Option Bytes
deriving DecidableEq

/-- All record handles, for introspection (section 4.4
indexed_resources()). -/
def OxidizedFinder.indexed_resources (f : OxidizedFinder) : List OxidizedResource :=
  f.resources

/-- The name → record lookup behind the finder's queries. -/
def findRecord (f : OxidizedFinder) (name : Bytes) : Option OxidizedResource :=
  f.resources.find? (fun r => r.name == name)

/-- Modelled from the spec: find_spec (section 4.4) — a module-spec for an
indexed name, null if unknown. -/
def OxidizedFinder.find_spec (f : OxidizedFinder) (name : Bytes) : Option ModuleSpec :=
  (findRecord f name).map (fun r => ⟨r.name, r.is_package, none⟩)

/-- Modelled from the spec: serialize_indexed_resources (section 4.4) emits
the current content as a fresh index blob using the writer. -/
def OxidizedFinder.serialize_indexed_resources (f : OxidizedFinder) : Bytes :=
  serializeRecords f.resources

/-- Load a finder from a serialized index buffer (section 4.4
index_bytes ingestion). -/
def loadFinder (buf : Bytes) : Except IndexError OxidizedFinder :=
  (index_bytes buf).map OxidizedFinder.mk

/-- The 16-byte empty index of section 8 scenario 1: magic "pyembed",
version byte 3, and two zero u32 header fields. -/
def emptyIndexBytes : Bytes := indexMagic ++ 3 :: (u32le 0 ++ u32le 0)

/-- Modelled from the spec: the host interpreter's table of built-in and
frozen module names, the input of index_interpreter_builtins and
index_interpreter_frozen_modules (section 4.4). -/
structure HostInterpreter where
  builtin_module_names : List Bytes
  frozen_module_names : List Bytes
deriving DecidableEq

/-- The record indexed for one host built-in module: flavor builtin, no
payloads (test_importer_resources.py::test_resources_builtins). -/
def builtinRecord (n : Bytes) : OxidizedResource :=
  ⟨n, .builtin, false, false, none, none, none, none, none, none, none, none⟩

/-- The record indexed for one host frozen module: flavor frozen, no
payloads (test_importer_resources.py::test_resources_frozen). -/
def frozenRecord (n : Bytes) : OxidizedResource :=
  ⟨n, .frozen, false, false, none, none, none, none, none, none, none, none⟩

/-- Modelled from the spec: OxidizedFinder construction with no resources
data — the constructor indexes the host interpreter's built-in and frozen
modules (the index_interpreter_builtins / index_interpreter_frozen_modules
ingestion of section 4.4, applied at construction as exercised by
test_importer_resources.py). -/
def OxidizedFinder.new (host : HostInterpreter) : OxidizedFinder :=
  ⟨host.builtin_module_names.map builtinRecord ++ host.frozen_module_names.map frozenRecord⟩

/-- Whether name is an immediate child of the dotted package prefix p:
equal to p ++ "." ++ one non-empty dot-free segment, or a single segment
when p is empty (section 4.5 query semantics; byte 46 is "."). -/
def isImmediateChild (p name : Bytes) : Bool :=
  match (if p.isEmpty then some name
         else if name.take (p.length + 1) == p ++ [46] then some (name.drop (p.length + 1))
         else none) with
  | Option.none => false
  | Option.some seg => !seg.isEmpty && !(seg.contains 46)

/-- Modelled from the spec: the Path-Entry Sub-Finder of section 4.5 — a
parent-Finder reference and the resolved dotted package prefix (the
read-only _package field, possibly empty). -/
structure OxidizedPathEntryFinder where
  finder : OxidizedFinder
  pkg : Bytes
deriving DecidableEq

/-- Modelled from the spec: the sub-finder's find_spec (section 4.5) — a
spec for names scoped strictly to the immediate children of the package
prefix, resolved through the parent finder's index (a name outside the
index yields null, as exercised by
test_importer_path_entry_finder.py::test_empty_finder_abs_str). -/
def OxidizedPathEntryFinder.find_spec (pef : OxidizedPathEntryFinder) (name : Bytes) :
    Option ModuleSpec :=
  if isImmediateChild pef.pkg name then pef.finder.find_spec name else none

/-- Modelled from the spec: the sub-finder's iter_modules (sections 4.4 and
4.5) — the indexed immediate children of the package prefix, as
(full dotted name, is-package) pairs
(test_importer_path_entry_finder.py::assert_find_spec_nested). -/
def OxidizedPathEntryFinder.iter_modules (pef : OxidizedPathEntryFinder) : List (Bytes × Bool) :=
  (pef.finder.resources.filter (fun r => isImmediateChild pef.pkg r.name)).map
    (fun r => (r.name, r.is_package))

/-- A Python argument handed to Finder.path_hook: a str, a bytes object, an
os.PathLike object (carrying its fspath string), or a value of any other
type (represented by an int, as in
test_importer_path_entry_finder.py::test_path_bad_type). -/
inductive PyPathArg
  | pyStr (s : Bytes)
  | pyBytes (b : Bytes)
  | pyPathLike (s : Bytes)
  | pyInt (n : Nat)
deriving DecidableEq

/-- Errors of path_hook: a type error from argument conversion, or an
ImportError for a path outside the base / failing the section 4.5 rules. -/
inductive PathHookError
  | typeError
  | importError
deriving DecidableEq

/-- Modelled from the spec and tests: path_hook's argument conversion.
The repository's tests pin the accepted argument types: str, bytes and
os.PathLike arguments are all accepted (os.fspath/fsdecode semantics;
test_find_spec_nested_rel_bytes, test_find_spec_nested_abs_pathlike,
test_find_spec_top_level_abs_bytes), while other types fail with a type
error (test_path_bad_type). -/
def fspathBytes : PyPathArg → Except PathHookError Bytes
  | .pyStr s => .ok s
  | .pyBytes b => .ok b
  | .pyPathLike s => .ok s
  | .pyInt _ => .error .typeError

/-- Split a path remainder on both directory separator kinds and on literal
".": bytes 47 "/", 92 "\" and 46 "." (section 4.5). -/
def splitSepsAux : Bytes → Bytes → List Bytes
  | [], acc => [acc.reverse]
  | c :: rest, acc =>
    if c = 46 || c = 47 || c = 92 then acc.reverse :: splitSepsAux rest []
    else splitSepsAux rest (c :: acc)

/-- Join dotted-name segments with "." (byte 46). -/
def intercalateDot : List Bytes → Bytes
  | [] => []
  | [c] => c
  | c :: rest => c ++ 46 :: intercalateDot rest

/-- Modelled from the spec: path validation and package derivation of
section 4.5 — the path must equal the base or extend it by one directory
separator; the remainder splits on both separator kinds and on "."; empty
components (consecutive, leading or trailing separators, and ".." which
splits into empties) are invalid. -/
def derivePackage (base path : Bytes) : Option Bytes :=
  if path == base then some []
  else if path.take (base.length + 1) == base ++ [47] ∨
          path.take (base.length + 1) == base ++ [92] then
    let comps := splitSepsAux (path.drop (base.length + 1)) []
    if comps.all (fun c => !c.isEmpty) then some (intercalateDot comps) else none
  else none

/-- Modelled from the spec and tests: Finder.path_hook (sections 4.4 and
4.5) — converts the argument per fspathBytes, derives the package prefix
from the path against the base string, and returns a Path-Entry Sub-Finder;
conversion failure is a type error and an out-of-base or invalid path is
an ImportError. -/
def OxidizedFinder.path_hook (f : OxidizedFinder) (base : Bytes) (arg : PyPathArg) :
    Except PathHookError OxidizedPathEntryFinder :=
  match fspathBytes arg with
  | .error e => .error e
  | .ok path =>
    match derivePackage base path with
    | Option.some pkg => .ok ⟨f, pkg⟩
    | Option.none => .error .importError

/-- The characters the distribution-name normalization collapses:
"-" (45), "_" (95) and "." (46). -/
def isNormSep (c : Nat) : Bool := c == 45 || c == 95 || c == 46

/-- One pass of re.sub over the name: replace every run of [-_.]+ with a
single "-" (45); the flag records whether the previous byte was in a run. -/
def collapseRuns : Bool → Bytes → Bytes
  | _, [] => []
  | inRun, c :: rest =>
    if isNormSep c then
      if inRun then collapseRuns true rest else 45 :: collapseRuns true rest
    else c :: collapseRuns false rest

/-- ASCII lowercasing of one byte. -/
def lowerByte (c : Nat) : Nat := if 65 ≤ c ∧ c ≤ 90 then c + 32 else c

/-- ASCII lowercasing of a byte string. -/
def lowerBytes (s : Bytes) : Bytes := s.map lowerByte

/-- Replace "-" (45) with "_" (95). -/
def dashToUnderscore (s : Bytes) : Bytes := s.map (fun c => if c == 45 then 95 else c)

/-- Modelled from the spec and tests: the distribution-name normalization
behind _normalized_name — collapse runs of [-_.]+ to "-", lowercase, then
replace "-" with "_" (the stdlib importlib.metadata rule), producing for
example "my_package" from "my-package" as asserted by
test_importer_metadata.py::test_normalized_name. -/
def normalized_name (name : Bytes) : Bytes :=
  dashToUnderscore (lowerBytes (collapseRuns false name))

/-- The normalization as the claim words it: lowercase and replace every
run of [-_.]+ with a single "-", with no trailing underscore replacement. -/
def claimNormalizedName (name : Bytes) : Bytes :=
  lowerBytes (collapseRuns false name)

/-- The normalization as amended: lowercase and replace every run of
[-_.]+ with a single "_" (95), in one pass. -/
def underscoreNormAux : Bool → Bytes → Bytes
  | _, [] => []
  | inRun, c :: rest =>
    if isNormSep c then
      if inRun then underscoreNormAux true rest else 95 :: underscoreNormAux true rest
    else lowerByte c :: underscoreNormAux false rest

/-- Modelled from the spec: find_distributions name filtering (section
4.4) — a distribution view matches the filter iff the normalized declared
name equals the normalized filter (both sides normalized). -/
def distMatchesFilter (declaredName filterName : Bytes) : Bool :=
  normalized_name declaredName == normalized_name filterName

/-- Modelled from the spec and tests: the resource reader returned by
get_resource_reader for one package (section 4.4) — it holds the package's
resource-name → data entries. -/
structure OxidizedResourceReader where
  entries : List (Bytes × Bytes)
deriving DecidableEq

/-- The error a resource reader raises for a name that is not a resource
of the package (FileNotFoundError, as asserted by
test_importer_resource_reading.py::test_top_level_package). -/
inductive ResourceReadError
  | fileNotFoundError
deriving DecidableEq

/-- Modelled from the spec and tests: the reader's is_resource — true for
an exact match of a resource name, and a FileNotFoundError failure (not a
false return) when no resource of that name exists
(test_importer_resource_reading.py::test_top_level_package). -/
def OxidizedResourceReader.is_resource (rdr : OxidizedResourceReader) (name : Bytes) :
    Except ResourceReadError Bool :=
  if rdr.entries.any (fun e => e.1 == name) then .ok true
  else .error .fileNotFoundError

/-- Python bytes.splitlines: split on "\n" (10), "\r" (13) and "\r\n",
with no trailing empty line for a trailing terminator
(src/python-packaging/src/bytecodecompiler.py uses source.splitlines()). -/
def splitLinesBytesAux : Bytes → Bytes → List Bytes
  | [], [] => []
  | [], acc => [acc.reverse]
  | 13 :: 10 :: rest, acc => acc.reverse :: splitLinesBytesAux rest []
  | 13 :: rest, acc => acc.reverse :: splitLinesBytesAux rest []
  | 10 :: rest, acc => acc.reverse :: splitLinesBytesAux rest []
  | c :: rest, acc => splitLinesBytesAux rest (c :: acc)

/-- Python bytes.splitlines over a byte string. -/
def splitLinesBytes (s : Bytes) : List Bytes := splitLinesBytesAux s []

/-- The character class [-_.a-zA-Z0-9] of the coding-declaration capture
group in RE_CODING (src/python-packaging/src/bytecodecompiler.py). -/
def isCodingNameChar (c : Nat) : Bool :=
  c == 45 || c == 95 || c == 46 ||
    (48 ≤ c && c ≤ 57) || (65 ≤ c && c ≤ 90) || (97 ≤ c && c ≤ 122)

/-- Try the tail of RE_CODING at the current position: literal "coding"
(99 111 100 105 110 103), one of ":" (58) or "=" (61), greedy [ \t]*,
then the non-empty greedy capture group over [-_.a-zA-Z0-9]. -/
def matchCodingAt (l : Bytes) : Option Bytes :=
  match l with
  | 99 :: 111 :: 100 :: 105 :: 110 :: 103 :: c :: rest =>
    if c = 58 || c = 61 then
      let captured := (rest.dropWhile (fun b => b == 32 || b == 9)).takeWhile isCodingNameChar
      if captured.isEmpty then none else some captured
    else none
  | _ => none

/-- The lazy ".*?" of RE_CODING: the match of the tail pattern at the
earliest position (a line holds no newline byte, so "." excludes
nothing). -/
def searchCoding : Bytes → Option Bytes
  | [] => none
  | c :: rest =>
    match matchCodingAt (c :: rest) with
    | Option.some cap => some cap
    | Option.none => searchCoding rest

/-- RE_CODING.match on one line, as compiled in
src/python-packaging/src/bytecodecompiler.py:
^[ \t\f]*#.*?coding[:=][ \t]*([-_.a-zA-Z0-9]+) — anchored at the line
start, allowing leading space/tab/formfeed (32, 9, 12) before "#" (35);
returns the captured encoding name. -/
def reCodingMatch (line : Bytes) : Option Bytes :=
  match line.dropWhile (fun b => b == 32 || b == 9 || b == 12) with
  | 35 :: rest => searchCoding rest
  | _ => none

/-- The claim's pattern #.*?coding[:=][ \t]*([-_.a-zA-Z0-9]+) applied the
same way (anchored match on the line): it admits no leading whitespace
before "#". -/
def claimCodingMatch (line : Bytes) : Option Bytes :=
  match line with
  | 35 :: rest => searchCoding rest
  | _ => none

/-- The encoding name "utf-8" as bytes. -/
def utf8Name : Bytes := [117, 116, 102, 45, 56]

/-- The UTF-8 byte-order mark. -/
def bomBytes : Bytes := [239, 187, 191]

/-- The coding-declaration scan of the compile command handler
(src/python-packaging/src/bytecodecompiler.py): default "utf-8", replaced
by the capture of the first of the first two lines RE_CODING matches. -/
def scanEncoding (matcher : Bytes → Option Bytes) (source : Bytes) : Bytes :=
  match ((splitLinesBytes source).take 2).filterMap matcher with
  | [] => utf8Name
  | e :: _ => e

/-- The source-encoding detection of the compile command handler in
src/python-packaging/src/bytecodecompiler.py (identically in
src/pyoxidizer/src/pyrepackager/bytecodecompiler.py): scan the first two
lines with RE_CODING, then — if the source starts with the UTF-8 BOM —
override the encoding to "utf-8" and strip the BOM.  Returns the chosen
encoding name and the source bytes to decode. -/
def detectSourceEncoding (source : Bytes) : Bytes × Bytes :=
  let encoding := scanEncoding reCodingMatch source
  if source.take 3 == bomBytes then (utf8Name, source.drop 3)
  else (encoding, source)

/-- The detection as the claim words it: BOM first (decode as UTF-8 with
the BOM stripped), otherwise the first of the first two lines matching the
claim's pattern (with no leading-whitespace allowance) gives the encoding,
otherwise UTF-8. -/
def claimDetectSourceEncoding (source : Bytes) : Bytes × Bytes :=
  if source.take 3 == bomBytes then (utf8Name, source.drop 3)
  else (scanEncoding claimCodingMatch source, source)

/-- The detection as amended: identical to the claim's wording except that
the coding-declaration pattern carries the source's leading
^[ \t\f]* whitespace allowance before "#". -/
def amendedDetectSourceEncoding (source : Bytes) : Bytes × Bytes :=
  if source.take 3 == bomBytes then (utf8Name, source.drop 3)
  else (scanEncoding reCodingMatch source, source)

/-- The "my_module" record of test_importer_resources.py::test_serialize_simple:
name "my_module", flavor module, in-memory source "import io". -/
def c1_my_module : OxidizedResource :=
  ⟨[109, 121, 95, 109, 111, 100, 117, 108, 101], .module, false, false,
    some [105, 109, 112, 111, 114, 116, 32, 105, 111],
    none, none, none, none, none, none, none⟩

/-- The "module_b" record of test_importer_resources.py::test_serialize_simple:
name "module_b", flavor module, in-memory bytecode "dummy bytecode". -/
def c1_module_b : OxidizedResource :=
  ⟨[109, 111, 100, 117, 108, 101, 95, 98], .module, false, false, none,
    some [100, 117, 109, 109, 121, 32, 98, 121, 116, 101, 99, 111, 100, 101],
    none, none, none, none, none, none⟩

/-- A sample module record with name "a" and an in-memory source payload. -/
def c9_rec_a : OxidizedResource :=
  ⟨[97], .module, false, false, some [120], none, none, none, none, none, none, none⟩

/-- A sample package record with name "b" and an in-memory bytecode payload. -/
def c9_rec_b : OxidizedResource :=
  ⟨[98], .module, true, false, none, some [121, 122], none, none, none, none, none, none⟩

/-- A serialized index buffer holding the two sample records. -/
def c9_buffer : Bytes := serializeRecords [c9_rec_a, c9_rec_b]

/-- The counterexample source bytes "\t# coding: latin-1\nx = 1\n": a coding
declaration preceded by a tab. -/
def c7_source : Bytes :=
  [9, 35, 32, 99, 111, 100, 105, 110, 103, 58, 32, 108, 97, 116, 105, 110, 45, 49, 10,
   120, 32, 61, 32, 49, 10]

theorem take_len_append (a b : Bytes) : (a ++ b).take a.length = a := by
  induction a with
  | nil => rfl
  | cons x xs ih => simp [ih]

theorem drop_len_append (a b : Bytes) : (a ++ b).drop a.length = b := by
  induction a with
  | nil => rfl
  | cons x xs ih => simp [ih]

theorem readU32_u32le (n : Nat) (h : n < 4294967296) (rest : Bytes) :
    readU32 (u32le n ++ rest) = some (n, rest) := by
  show readU32 (n % 256 :: n / 256 % 256 :: n / 65536 % 256 :: n / 16777216 % 256 :: rest) = _
  simp only [readU32, Option.some.injEq, Prod.mk.injEq, and_true]
  omega

theorem readChunk_append (s rest : Bytes) : readChunk s.length (s ++ rest) = some (s, rest) := by
  unfold readChunk
  rw [if_pos (by simp), take_len_append, drop_len_append]

theorem readName_encode (n : Bytes) (h : n.length < 4294967296) (rest : Bytes) :
    readName (u32le n.length ++ (n ++ rest)) = some (n, rest) := by
  unfold readName
  rw [readU32_u32le _ h]
  exact readChunk_append n rest

theorem readNames_namesBlob (rs : List OxidizedResource)
    (h : ∀ r ∈ rs, r.name.length < 4294967296) (rest : Bytes) :
    readNames rs.length (namesBlob rs ++ rest) = some (rs.map (·.name), rest) := by
  induction rs with
  | nil => rfl
  | cons r rs ih =>
    have h1 : r.name.length < 4294967296 := h r (by simp)
    have e1 : readName ((u32le r.name.length ++ (r.name ++ namesBlob rs)) ++ rest) =
        some (r.name, namesBlob rs ++ rest) := by
      rw [List.append_assoc, List.append_assoc]
      exact readName_encode r.name h1 (namesBlob rs ++ rest)
    have e2 := ih (fun x hx => h x (List.mem_cons_of_mem _ hx))
    show readNames (rs.length + 1) _ = _
    unfold readNames namesBlob
    rw [e1]
    show (match readNames rs.length (namesBlob rs ++ rest) with
          | Option.none => none
          | Option.some (names, rest2) => some (r.name :: names, rest2)) =
        some (r.name :: rs.map (·.name), rest)
    rw [e2]

theorem payloadFlat_cons_none (t : Nat) (fs : List (Nat × Option Bytes)) :
    payloadFlat ((t, none) :: fs) = payloadFlat fs := rfl

theorem payloadFlat_cons_some (t : Nat) (s : Bytes) (fs : List (Nat × Option Bytes)) :
    payloadFlat ((t, some s) :: fs) = s ++ payloadFlat fs := rfl

theorem readOptRef_cons_ne (tag t : Nat) (h : ¬ t = tag) (rest : Bytes) :
    readOptRef tag (t :: rest) = some (none, t :: rest) := by
  simp only [readOptRef]
  rw [if_neg h]

theorem readOptRef_hit (tag off len : Nat) (hoff : off < 4294967296)
    (hlen : len < 4294967296) (rest : Bytes) :
    readOptRef tag (tag :: 0 :: (u32le off ++ (u32le len ++ rest))) =
      some (some (off, len), rest) := by
  simp [readOptRef, readU32_u32le off hoff, readU32_u32le len hlen]

theorem readOptRef_skip (tag : Nat) (htag : tag < 255) (tail : Bytes)
    (fields : List (Nat × Option Bytes)) :
    ∀ off : Nat, (∀ p ∈ fields, tag < p.1) →
      readOptRef tag (encodeRefs off fields ++ 255 :: tail) =
        some (none, encodeRefs off fields ++ 255 :: tail) := by
  induction fields with
  | nil =>
    intro off _
    exact readOptRef_cons_ne tag 255 (by omega) tail
  | cons p fields ih =>
    match p with
    | (t, Option.none) =>
      intro off hgt
      show readOptRef tag (encodeRefs off fields ++ 255 :: tail) = _
      exact ih off (fun q hq => hgt q (List.mem_cons_of_mem _ hq))
    | (t, Option.some s) =>
      intro off hgt
      have ht : tag < t := hgt (t, some s) (List.mem_cons_self _ _)
      exact readOptRef_cons_ne tag t (by omega) _

theorem readRefs_encodeRefs (tail : Bytes) (fields : List (Nat × Option Bytes)) :
    ∀ off : Nat, tagsAscending fields → (∀ p ∈ fields, p.1 < 255) →
      off + (payloadFlat fields).length < 4294967296 →
      readRefs (fields.map Prod.fst) (encodeRefs off fields ++ 255 :: tail) =
        some (refsOf off fields, 255 :: tail) := by
  induction fields with
  | nil => intro off _ _ _; rfl
  | cons p fields ih =>
    match p with
    | (t, Option.none) =>
      intro off hasc hmax hsz
      have e1 : readOptRef t (encodeRefs off fields ++ 255 :: tail) =
          some (none, encodeRefs off fields ++ 255 :: tail) :=
        readOptRef_skip t (hmax (t, none) (List.mem_cons_self _ _)) tail fields off hasc.1
      have e2 := ih off hasc.2 (fun q hq => hmax q (List.mem_cons_of_mem _ hq))
        (by rw [payloadFlat_cons_none] at hsz; exact hsz)
      show readRefs (t :: fields.map Prod.fst) (encodeRefs off fields ++ 255 :: tail) = _
      simp [readRefs, e1, e2, refsOf]
    | (t, Option.some s) =>
      intro off hasc hmax hsz
      have hsz1 : off < 4294967296 := by omega
      have hsz2 : s.length < 4294967296 := by
        rw [payloadFlat_cons_some, List.length_append] at hsz; omega
      have hsz3 : off + s.length + (payloadFlat fields).length < 4294967296 := by
        rw [payloadFlat_cons_some, List.length_append] at hsz; omega
      have e2 := ih (off + s.length) hasc.2 (fun q hq => hmax q (List.mem_cons_of_mem _ hq)) hsz3
      have e1 : readOptRef t
          (t :: 0 :: (u32le off ++ (u32le s.length ++
            (encodeRefs (off + s.length) fields ++ 255 :: tail)))) =
          some (some (off, s.length), encodeRefs (off + s.length) fields ++ 255 :: tail) :=
        readOptRef_hit t off s.length hsz1 hsz2 _
      show readRefs (t :: fields.map Prod.fst)
          ((t :: 0 :: (u32le off ++ (u32le s.length ++ encodeRefs (off + s.length) fields))) ++
            255 :: tail) = _
      simp [readRefs, e1, e2, refsOf]

theorem byteToFlavor_toByte (fl : ResourceFlavor) : byteToFlavor fl.toByte = some fl := by
  cases fl <;> rfl

theorem byteToBool_boolByte (b : Bool) : byteToBool (boolByte b) = some b := by
  cases b <;> rfl

theorem payloadFields_tags (r : OxidizedResource) :
    (payloadFields r).map Prod.fst = fieldTags := rfl

theorem payloadFields_ascending (r : OxidizedResource) : tagsAscending (payloadFields r) := by
  refine ⟨?_, ?_, ?_, ?_, ?_, ?_, ?_, ?_, trivial⟩ <;> · intro p hp; fin_cases hp <;> omega

theorem payloadFields_max (r : OxidizedResource) : ∀ p ∈ payloadFields r, p.1 < 255 := by
  intro p hp; fin_cases hp <;> omega

theorem readRaw_recordEntries (off : Nat) (r : OxidizedResource) (tail : Bytes)
    (hsz : off + payloadSize r < 4294967296) :
    readRaw (recordEntries off r ++ tail) = some (rawOf off r, tail) := by
  have e1 : readRefs ((payloadFields r).map Prod.fst)
      (encodeRefs off (payloadFields r) ++ 255 :: tail) =
      some (refsOf off (payloadFields r), 255 :: tail) :=
    readRefs_encodeRefs tail (payloadFields r) off (payloadFields_ascending r)
      (payloadFields_max r) hsz
  rw [payloadFields_tags] at e1
  show readRaw (1 :: r.flavor.toByte :: 2 :: boolByte r.is_package ::
      3 :: boolByte r.is_namespace_package ::
      ((encodeRefs off (payloadFields r) ++ [255]) ++ tail)) = _
  have estream : (encodeRefs off (payloadFields r) ++ [255]) ++ tail =
      encodeRefs off (payloadFields r) ++ 255 :: tail := by
    rw [List.append_assoc]; rfl
  rw [estream]
  simp [readRaw, byteToFlavor_toByte, byteToBool_boolByte, e1, rawOf]

theorem totalPayload_cons (r : OxidizedResource) (rs : List OxidizedResource) :
    totalPayload (r :: rs) = payloadSize r + totalPayload rs := by
  simp [totalPayload, allPayloads, payloadSize]

theorem readRaws_allEntries (tail : Bytes) (rs : List OxidizedResource) :
    ∀ off : Nat, off + totalPayload rs < 4294967296 →
      readRaws rs.length (allEntries off rs ++ tail) = some (rawsOf off rs, tail) := by
  induction rs with
  | nil => intro off _; rfl
  | cons r rs ih =>
    intro off hsz
    rw [totalPayload_cons] at hsz
    have e1 : readRaw ((recordEntries off r ++ allEntries (off + payloadSize r) rs) ++ tail) =
        some (rawOf off r, allEntries (off + payloadSize r) rs ++ tail) := by
      rw [List.append_assoc]
      exact readRaw_recordEntries off r _ (by omega)
    have e2 := ih (off + payloadSize r) (by omega)
    show readRaws (rs.length + 1)
        ((recordEntries off r ++ allEntries (off + payloadSize r) rs) ++ tail) = _
    simp only [readRaws, e1, e2]
    rfl

theorem sliceBlob_extract (pre mid suf : Bytes) :
    sliceBlob (pre ++ (mid ++ suf)) pre.length mid.length = some mid := by
  unfold sliceBlob
  rw [if_pos (by simp only [List.length_append]; omega)]
  rw [drop_len_append, take_len_append]

theorem materializeRefs_refsOf (fields : List (Nat × Option Bytes)) :
    ∀ pre suf : Bytes,
      materializeRefs (pre ++ (payloadFlat fields ++ suf)) (refsOf pre.length fields) =
        some (fields.map Prod.snd) := by
  induction fields with
  | nil => intro pre suf; rfl
  | cons p fields ih =>
    match p with
    | (t, Option.none) =>
      intro pre suf
      show materializeRefs (pre ++ (payloadFlat fields ++ suf))
          (none :: refsOf pre.length fields) = _
      simp only [materializeRefs, materializeRef, ih pre suf]
      rfl
    | (t, Option.some s) =>
      intro pre suf
      have hblob : pre ++ (payloadFlat ((t, some s) :: fields) ++ suf) =
          pre ++ (s ++ (payloadFlat fields ++ suf)) := by
        rw [payloadFlat_cons_some, List.append_assoc]
      have hslice : sliceBlob (pre ++ (s ++ (payloadFlat fields ++ suf))) pre.length s.length =
          some s := sliceBlob_extract pre s _
      have hrec := ih (pre ++ s) suf
      have hblob2 : (pre ++ s) ++ (payloadFlat fields ++ suf) =
          pre ++ (s ++ (payloadFlat fields ++ suf)) := by rw [List.append_assoc]
      rw [hblob2] at hrec
      rw [List.length_append] at hrec
      show materializeRefs (pre ++ (payloadFlat ((t, some s) :: fields) ++ suf))
          (some (pre.length, s.length) :: refsOf (pre.length + s.length) fields) = _
      rw [hblob]
      simp only [materializeRefs, materializeRef, hslice, hrec, Option.map_some]
      rfl

theorem assembleRecord_payloadFields (off : Nat) (r : OxidizedResource) :
    assembleRecord r.name (rawOf off r) ((payloadFields r).map Prod.snd) = some r := rfl

theorem rawOf_refs (off : Nat) (r : OxidizedResource) :
    (rawOf off r).refs = refsOf off (payloadFields r) := rfl

theorem buildRecords_roundtrip (rs : List OxidizedResource) :
    ∀ pre suf : Bytes,
      buildRecords (pre ++ (allPayloads rs ++ suf)) (rs.map (·.name)) (rawsOf pre.length rs) =
        some rs := by
  induction rs with
  | nil => intro pre suf; rfl
  | cons r rs ih =>
    intro pre suf
    have hblob : pre ++ (allPayloads (r :: rs) ++ suf) =
        pre ++ (payloadFlat (payloadFields r) ++ (allPayloads rs ++ suf)) := by
      show pre ++ ((payloadFlat (payloadFields r) ++ allPayloads rs) ++ suf) = _
      rw [List.append_assoc]
    have hmat : materializeRefs
        (pre ++ (payloadFlat (payloadFields r) ++ (allPayloads rs ++ suf)))
        (refsOf pre.length (payloadFields r)) = some ((payloadFields r).map Prod.snd) :=
      materializeRefs_refsOf (payloadFields r) pre (allPayloads rs ++ suf)
    have hrec := ih (pre ++ payloadFlat (payloadFields r)) suf
    have hblob2 : (pre ++ payloadFlat (payloadFields r)) ++ (allPayloads rs ++ suf) =
        pre ++ (payloadFlat (payloadFields r) ++ (allPayloads rs ++ suf)) := by
      rw [List.append_assoc]
    rw [hblob2, List.length_append] at hrec
    show buildRecords (pre ++ (allPayloads (r :: rs) ++ suf))
        (r.name :: rs.map (·.name))
        (rawOf pre.length r :: rawsOf (pre.length + payloadSize r) rs) = _
    rw [hblob]
    simp only [buildRecords, rawOf_refs, hmat, assembleRecord_payloadFields, payloadSize, hrec]

theorem lexLt_irrefl (a : Bytes) : lexLt a a = false := by
  induction a with
  | nil => rfl
  | cons x xs ih => simp [lexLt, ih]

theorem lexLt_trans : ∀ {a b c : Bytes}, lexLt a b = true → lexLt b c = true → lexLt a c = true := by
  intro a
  induction a with
  | nil =>
    intro b c h1 h2
    cases c with
    | nil =>
      cases b with
      | nil => exact h2
      | cons y ys => simp [lexLt] at h2
    | cons z zs => rfl
  | cons x xs ih =>
    intro b c h1 h2
    cases b with
    | nil => simp [lexLt] at h1
    | cons y ys =>
      cases c with
      | nil => simp [lexLt] at h2
      | cons z zs =>
        simp only [lexLt] at h1 h2 ⊢
        by_cases hxy : x < y
        · rw [if_pos hxy] at h1
          by_cases hyz : y < z
          · rw [if_pos (by omega)]
          · rw [if_neg hyz] at h2
            by_cases hyz2 : y = z
            · rw [if_pos (by omega)]
            · rw [if_neg hyz2] at h2
              exact absurd h2 (by simp)
        · rw [if_neg hxy] at h1
          by_cases hxy2 : x = y
          · rw [if_pos hxy2] at h1
            by_cases hyz : y < z
            · rw [if_pos (by omega)]
            · rw [if_neg hyz] at h2
              by_cases hyz2 : y = z
              · rw [if_pos hyz2] at h2
                rw [if_neg (by omega), if_pos (by omega)]
                exact ih h1 h2
              · rw [if_neg hyz2] at h2
                exact absurd h2 (by simp)
          · rw [if_neg hxy2] at h1
            exact absurd h1 (by simp)

theorem lexLt_trichotomy (a : Bytes) : ∀ b : Bytes, lexLt a b = true ∨ a = b ∨ lexLt b a = true := by
  induction a with
  | nil =>
    intro b
    cases b with
    | nil => right; left; rfl
    | cons y ys => left; rfl
  | cons x xs ih =>
    intro b
    cases b with
    | nil => right; right; rfl
    | cons y ys =>
      rcases Nat.lt_trichotomy x y with h | h | h
      · left; simp [lexLt, h]
      · subst h
        rcases ih ys with h' | h' | h'
        · left; simp [lexLt, h']
        · right; left; rw [h']
        · right; right; simp [lexLt, h']
      · right; right; simp [lexLt, h]

theorem lexLe_of_eq {a b : Bytes} (h : a = b) : lexLe a b = true := by
  subst h; simp [lexLe]

theorem lexLe_total (a b : Bytes) : lexLe a b = true ∨ lexLe b a = true := by
  rcases lexLt_trichotomy a b with h | h | h
  · left; simp [lexLe, h]
  · left; exact lexLe_of_eq h
  · right; simp [lexLe, h]

theorem lexLe_iff {a b : Bytes} : lexLe a b = true ↔ lexLt a b = true ∨ a = b := by
  simp [lexLe]

theorem lexLe_trans {a b c : Bytes} (h1 : lexLe a b = true) (h2 : lexLe b c = true) :
    lexLe a c = true := by
  rcases lexLe_iff.mp h1 with h1' | h1'
  · rcases lexLe_iff.mp h2 with h2' | h2'
    · exact lexLe_iff.mpr (Or.inl (lexLt_trans h1' h2'))
    · subst h2'; exact lexLe_iff.mpr (Or.inl h1')
  · subst h1'; exact h2

theorem lexLt_of_le_ne {a b : Bytes} (h1 : lexLe a b = true) (h2 : a ≠ b) :
    lexLt a b = true := by
  rcases lexLe_iff.mp h1 with h | h
  · exact h
  · exact absurd h h2

theorem insertRecord_perm (r : OxidizedResource) (l : List OxidizedResource) :
    (insertRecord r l).Perm (r :: l) := by
  induction l with
  | nil => exact List.Perm.refl _
  | cons x xs ih =>
    unfold insertRecord
    split
    · exact List.Perm.refl _
    · exact (ih.cons x).trans (List.Perm.swap r x xs)

theorem sortByName_cons (r : OxidizedResource) (rs : List OxidizedResource) :
    sortByName (r :: rs) = insertRecord r (sortByName rs) := rfl

theorem sortByName_perm (rs : List OxidizedResource) : (sortByName rs).Perm rs := by
  induction rs with
  | nil => exact List.Perm.refl _
  | cons r rs ih =>
    rw [sortByName_cons]
    exact (insertRecord_perm r (sortByName rs)).trans (ih.cons r)

theorem mem_insertRecord {y r : OxidizedResource} {l : List OxidizedResource}
    (h : y ∈ insertRecord r l) : y = r ∨ y ∈ l := by
  have := (insertRecord_perm r l).mem_iff.mp h
  simpa using this

theorem pairwise_insertRecord (r : OxidizedResource) (l : List OxidizedResource)
    (h : l.Pairwise (fun a b => lexLe a.name b.name = true)) :
    (insertRecord r l).Pairwise (fun a b => lexLe a.name b.name = true) := by
  induction l with
  | nil => simp [insertRecord]
  | cons x xs ih =>
    rcases List.pairwise_cons.mp h with ⟨hx, hxs⟩
    unfold insertRecord
    split
    · rename_i hle
      refine List.pairwise_cons.mpr ⟨?_, h⟩
      intro y hy
      rcases List.mem_cons.mp hy with hy | hy
      · subst hy; exact hle
      · exact lexLe_trans hle (hx y hy)
    · rename_i hnle
      refine List.pairwise_cons.mpr ⟨?_, ih hxs⟩
      intro y hy
      rcases mem_insertRecord hy with hy | hy
      · rw [hy]
        rcases lexLe_total r.name x.name with hh | hh
        · exact absurd hh hnle
        · exact hh
      · exact hx y hy

theorem sortByName_pairwise (rs : List OxidizedResource) :
    (sortByName rs).Pairwise (fun a b => lexLe a.name b.name = true) := by
  induction rs with
  | nil => simp [sortByName]
  | cons r rs ih =>
    rw [sortByName_cons]
    exact pairwise_insertRecord r (sortByName rs) ih

theorem strictSorted_cons_tail {a : Bytes} {l : List Bytes}
    (h : strictSortedNames (a :: l) = true) : strictSortedNames l = true := by
  cases l with
  | nil => rfl
  | cons b l2 =>
    simp only [strictSortedNames, Bool.and_eq_true] at h
    exact h.2

theorem strictSorted_head_lt {a : Bytes} {l : List Bytes}
    (h : strictSortedNames (a :: l) = true) : ∀ b ∈ l, lexLt a b = true := by
  induction l generalizing a with
  | nil => intro b hb; cases hb
  | cons c l ih =>
    intro b hb
    have h' : lexLt a c = true ∧ strictSortedNames (c :: l) = true := by
      simpa [strictSortedNames, Bool.and_eq_true] using h
    rcases List.mem_cons.mp hb with hb | hb
    · subst hb; exact h'.1
    · exact lexLt_trans h'.1 (ih h'.2 b hb)

theorem strictSorted_nodup : ∀ l : List Bytes, strictSortedNames l = true → l.Nodup := by
  intro l
  induction l with
  | nil => intro _; exact List.nodup_nil
  | cons a l ih =>
    intro h
    refine List.nodup_cons.mpr ⟨?_, ih (strictSorted_cons_tail h)⟩
    intro hmem
    have := strictSorted_head_lt h a hmem
    rw [lexLt_irrefl] at this
    exact absurd this (by simp)

theorem strictSorted_of_pairwise : ∀ l : List Bytes,
    l.Pairwise (fun a b => lexLe a b = true) → l.Nodup → strictSortedNames l = true := by
  intro l
  induction l with
  | nil => intro _ _; rfl
  | cons a l ih =>
    intro hp hn
    cases l with
    | nil => rfl
    | cons b l2 =>
      rcases List.pairwise_cons.mp hp with ⟨ha, hp2⟩
      rcases List.nodup_cons.mp hn with ⟨hna, hn2⟩
      have hne : a ≠ b := fun h => hna (h ▸ List.mem_cons_self b l2)
      have hlt : lexLt a b = true := lexLt_of_le_ne (ha b (List.mem_cons_self b l2)) hne
      show (lexLt a b && strictSortedNames (b :: l2)) = true
      rw [hlt, ih hp2 hn2]
      rfl

theorem validNames_sortByName (rs : List OxidizedResource)
    (hnd : (rs.map (·.name)).Nodup) (hne : ∀ r ∈ rs, r.name ≠ []) :
    validNames ((sortByName rs).map (·.name)) = true := by
  have hperm : ((sortByName rs).map (·.name)).Perm (rs.map (·.name)) :=
    (sortByName_perm rs).map _
  have hnd2 : ((sortByName rs).map (·.name)).Nodup := hperm.nodup_iff.mpr hnd
  have hpair : ((sortByName rs).map (·.name)).Pairwise (fun a b => lexLe a b = true) :=
    List.pairwise_map.mpr (sortByName_pairwise rs)
  unfold validNames
  rw [strictSorted_of_pairwise _ hpair hnd2]
  have hall : ((sortByName rs).map (·.name)).all (fun n => !n.isEmpty) = true := by
    rw [List.all_eq_true]
    intro n hnmem
    rcases List.mem_map.mp hnmem with ⟨r, hr, hrn⟩
    have hmem2 : r ∈ rs := (sortByName_perm rs).mem_iff.mp hr
    have hne' : n ≠ [] := by rw [← hrn]; exact hne r hmem2
    simp [List.isEmpty_iff, hne']
  rw [hall]
  rfl

theorem index_bytes_wellformed (rs : List OxidizedResource) (sc : Nat)
    (hsc : sc < 4294967296) (hcnt : rs.length < 4294967296)
    (hnm : ∀ r ∈ rs, r.name.length < 4294967296)
    (hsz : totalPayload rs < 4294967296)
    (hvalid : validNames (rs.map (·.name)) = true) :
    index_bytes (indexMagic ++ 3 :: (u32le sc ++ (u32le rs.length ++
      (namesBlob rs ++ (allEntries 0 rs ++ allPayloads rs))))) = .ok rs := by
  have hlen : ¬ ((indexMagic ++ 3 :: (u32le sc ++ (u32le rs.length ++
      (namesBlob rs ++ (allEntries 0 rs ++ allPayloads rs))))).length < 8) := by
    simp [indexMagic, u32le]
  have htake : (indexMagic ++ 3 :: (u32le sc ++ (u32le rs.length ++
      (namesBlob rs ++ (allEntries 0 rs ++ allPayloads rs))))).take 7 = indexMagic := by
    rw [show (7 : Nat) = indexMagic.length from rfl, take_len_append]
  have hdrop : (indexMagic ++ 3 :: (u32le sc ++ (u32le rs.length ++
      (namesBlob rs ++ (allEntries 0 rs ++ allPayloads rs))))).drop 7 =
      3 :: (u32le sc ++ (u32le rs.length ++
        (namesBlob rs ++ (allEntries 0 rs ++ allPayloads rs)))) := by
    rw [show (7 : Nat) = indexMagic.length from rfl, drop_len_append]
  have e1 : readU32 (u32le sc ++ (u32le rs.length ++
      (namesBlob rs ++ (allEntries 0 rs ++ allPayloads rs)))) =
      some (sc, u32le rs.length ++ (namesBlob rs ++ (allEntries 0 rs ++ allPayloads rs))) :=
    readU32_u32le sc hsc _
  have e2 : readU32 (u32le rs.length ++ (namesBlob rs ++ (allEntries 0 rs ++ allPayloads rs))) =
      some (rs.length, namesBlob rs ++ (allEntries 0 rs ++ allPayloads rs)) :=
    readU32_u32le rs.length hcnt _
  have e3 : readNames rs.length (namesBlob rs ++ (allEntries 0 rs ++ allPayloads rs)) =
      some (rs.map (·.name), allEntries 0 rs ++ allPayloads rs) :=
    readNames_namesBlob rs hnm _
  have e4 : readRaws rs.length (allEntries 0 rs ++ allPayloads rs) =
      some (rawsOf 0 rs, allPayloads rs) := by
    have := readRaws_allEntries (allPayloads rs) rs 0 (by omega)
    simpa using this
  have e5 : buildRecords (allPayloads rs) (rs.map (·.name)) (rawsOf 0 rs) = some rs := by
    have := buildRecords_roundtrip rs [] []
    simpa using this
  unfold index_bytes
  rw [if_neg hlen, if_neg (by rw [htake]; exact fun h => h rfl), hdrop]
  simp only [e1, e2, e3, e4, e5, hvalid]
  simp

theorem assembleRecord_name {name : Bytes} {raw : RawRecord} {fields : List (Option Bytes)}
    {r : OxidizedResource} (h : assembleRecord name raw fields = some r) : r.name = name := by
  unfold assembleRecord at h
  split at h
  · cases h; rfl
  · cases h

theorem buildRecords_names {blob : Bytes} :
    ∀ {names : List Bytes} {raws : List RawRecord} {recs : List OxidizedResource},
      buildRecords blob names raws = some recs → recs.map (·.name) = names := by
  intro names
  induction names with
  | nil =>
    intro raws recs h
    cases raws with
    | nil =>
      simp only [buildRecords] at h
      cases h
      rfl
    | cons raw raws => simp [buildRecords] at h
  | cons name names ih =>
    intro raws recs h
    cases raws with
    | nil => simp [buildRecords] at h
    | cons raw raws =>
      cases hm : materializeRefs blob raw.refs with
      | none =>
        simp only [buildRecords, hm] at h
        exact Option.noConfusion h
      | some fields =>
        cases ha : assembleRecord name raw fields with
        | none =>
          simp only [buildRecords, hm, ha] at h
          exact Option.noConfusion h
        | some r =>
          cases hb : buildRecords blob names raws with
          | none =>
            simp only [buildRecords, hm, ha, hb] at h
            exact Option.noConfusion h
          | some rest =>
            simp only [buildRecords, hm, ha, hb, Option.some.injEq] at h
            rw [← h]
            simp only [List.map]
            rw [assembleRecord_name ha, ih hb]

theorem index_bytes_names {buf : Bytes} {recs : List OxidizedResource}
    (h : index_bytes buf = .ok recs) : validNames (recs.map (·.name)) = true := by
  unfold index_bytes at h
  split at h
  · cases h
  · split at h
    · cases h
    · split at h
      · cases h
      · rename_i v rest
        split at h
        · cases h
        · split at h
          · cases h
          · rename_i sc rest1 hr1
            split at h
            · cases h
            · rename_i count rest2 hr2
              split at h
              · cases h
              · rename_i names rest3 hr3
                split at h
                · cases h
                · rename_i raws blob hr4
                  split at h
                  · cases h
                  · rename_i recs0 hb
                    split at h
                    · rename_i hv
                      cases h
                      rw [buildRecords_names hb]
                      exact hv
                    · cases h

theorem totalPayload_eq_sum (rs : List OxidizedResource) :
    totalPayload rs = (rs.map payloadSize).sum := by
  induction rs with
  | nil => rfl
  | cons r rs ih => rw [totalPayload_cons, ih]; simp

theorem totalPayload_perm {rs1 rs2 : List OxidizedResource} (h : rs1.Perm rs2) :
    totalPayload rs1 = totalPayload rs2 := by
  rw [totalPayload_eq_sum, totalPayload_eq_sum]
  exact (h.map payloadSize).sum_eq

theorem sectionCount_lt (rs : List OxidizedResource) : sectionCount rs < 4294967296 := by
  unfold sectionCount
  split <;> omega

theorem isNormSep_lowerByte (c : Nat) : isNormSep (lowerByte c) = isNormSep c := by
  unfold lowerByte isNormSep
  split
  · rename_i h
    have hl : (c + 32 == 45 || c + 32 == 95 || c + 32 == 46) = false := by
      simp only [Bool.or_eq_false_iff, beq_eq_false_iff_ne, ne_eq]
      omega
    have hr : (c == 45 || c == 95 || c == 46) = false := by
      simp only [Bool.or_eq_false_iff, beq_eq_false_iff_ne, ne_eq]
      omega
    rw [hl, hr]
  · rfl

theorem lowerByte_idem (c : Nat) : lowerByte (lowerByte c) = lowerByte c := by
  unfold lowerByte
  split
  · rename_i h
    rw [if_neg (by omega)]
  · rfl

theorem lowerByte_of_sep {c : Nat} (h : isNormSep c = true) : lowerByte c = c := by
  unfold isNormSep at h
  unfold lowerByte
  rw [if_neg (by simp only [Bool.or_eq_true, beq_iff_eq] at h; omega)]

theorem lowerByte_ne_dash {c : Nat} (h : isNormSep c = false) : ¬ lowerByte c = 45 := by
  unfold isNormSep at h
  simp only [Bool.or_eq_false_iff, beq_eq_false_iff_ne, ne_eq] at h
  unfold lowerByte
  split <;> omega

theorem normPipeline_eq (s : Bytes) : ∀ flag : Bool,
    dashToUnderscore (lowerBytes (collapseRuns flag s)) = underscoreNormAux flag s := by
  induction s with
  | nil => intro flag; rfl
  | cons c cs ih =>
    intro flag
    by_cases hsep : isNormSep c = true
    · cases flag with
      | true =>
        show dashToUnderscore (lowerBytes (collapseRuns true (c :: cs))) = _
        simp only [collapseRuns, underscoreNormAux, hsep, if_true, if_pos]
        exact ih true
      | false =>
        show dashToUnderscore (lowerBytes (collapseRuns false (c :: cs))) = _
        simp only [collapseRuns, underscoreNormAux, hsep, if_true]
        show dashToUnderscore (lowerBytes (45 :: collapseRuns true cs)) =
          95 :: underscoreNormAux true cs
        show dashToUnderscore (lowerByte 45 :: lowerBytes (collapseRuns true cs)) = _
        rw [show lowerByte 45 = 45 from rfl]
        show (if (45 : Nat) == 45 then 95 else 45) ::
          dashToUnderscore (lowerBytes (collapseRuns true cs)) = _
        rw [ih true]
        rfl
    · rw [Bool.not_eq_true] at hsep
      simp only [collapseRuns, underscoreNormAux, hsep, Bool.false_eq_true, if_false]
      show dashToUnderscore (lowerByte c :: lowerBytes (collapseRuns false cs)) = _
      show (if lowerByte c == 45 then 95 else lowerByte c) ::
        dashToUnderscore (lowerBytes (collapseRuns false cs)) = _
      rw [if_neg (by simp only [beq_iff_eq]; exact lowerByte_ne_dash hsep)]
      rw [ih false]

theorem underscoreNorm_lowerBytes (s : Bytes) : ∀ flag : Bool,
    underscoreNormAux flag (lowerBytes s) = underscoreNormAux flag s := by
  induction s with
  | nil => intro flag; rfl
  | cons c cs ih =>
    intro flag
    show underscoreNormAux flag (lowerByte c :: lowerBytes cs) = _
    by_cases hsep : isNormSep c = true
    · have hsep2 : isNormSep (lowerByte c) = true := by rw [isNormSep_lowerByte]; exact hsep
      cases flag with
      | true => simp only [underscoreNormAux, hsep, hsep2, if_true]; exact ih true
      | false =>
        simp only [underscoreNormAux, hsep, hsep2, if_true]
        rw [ih true]
    · rw [Bool.not_eq_true] at hsep
      have hsep2 : isNormSep (lowerByte c) = false := by rw [isNormSep_lowerByte]; exact hsep
      simp only [underscoreNormAux, hsep, hsep2, Bool.false_eq_true, if_false]
      rw [lowerByte_idem, ih false]

theorem normalized_name_underscore (s : Bytes) :
    normalized_name s = underscoreNormAux false s :=
  normPipeline_eq s false

theorem anyBeq_iff_mem_map (entries : List (Bytes × Bytes)) (name : Bytes) :
    (entries.any (fun e => e.1 == name)) = true ↔ name ∈ entries.map Prod.fst := by
  rw [List.any_eq_true]
  rw [List.mem_map]
  constructor
  · rintro ⟨e, he, hbeq⟩
    exact ⟨e, he, by rw [beq_iff_eq] at hbeq; exact hbeq⟩
  · rintro ⟨e, he, heq⟩
    exact ⟨e, he, by rw [beq_iff_eq]; exact heq⟩

/-- Claim C1: decoding the writer's encoding of a record set yields records
field-by-field equal to the input (in the writer's canonical name-sorted
order, a permutation of the input), and a Finder serialized via
serialize_indexed_resources and reloaded into a fresh Finder reports the
same indexed_resources content, payloads such as in_memory_source and
in_memory_bytecode included. -/
theorem c1_serialize_roundtrip (rs : List OxidizedResource)
    (hnd : (rs.map (·.name)).Nodup)
    (hne : ∀ r ∈ rs, r.name ≠ [])
    (hcnt : rs.length < 4294967296)
    (hnm : ∀ r ∈ rs, r.name.length < 4294967296)
    (hsz : totalPayload rs < 4294967296) :
    index_bytes (serializeRecords rs) = .ok (sortByName rs) ∧
    (sortByName rs).Perm rs ∧
    loadFinder (OxidizedFinder.serialize_indexed_resources ⟨rs⟩) =
      .ok ⟨sortByName rs⟩ := by
  have hperm := sortByName_perm rs
  have hvalid := validNames_sortByName rs hnd hne
  have h1 : index_bytes (serializeRecords rs) = .ok (sortByName rs) := by
    have hcnt2 : (sortByName rs).length < 4294967296 := by
      rw [hperm.length_eq]; exact hcnt
    have hnm2 : ∀ r ∈ sortByName rs, r.name.length < 4294967296 :=
      fun r hr => hnm r (hperm.mem_iff.mp hr)
    have hsz2 : totalPayload (sortByName rs) < 4294967296 := by
      rw [totalPayload_perm hperm]; exact hsz
    exact index_bytes_wellformed (sortByName rs) (sectionCount (sortByName rs))
      (sectionCount_lt _) hcnt2 hnm2 hsz2 hvalid
  refine ⟨h1, hperm, ?_⟩
  unfold loadFinder OxidizedFinder.serialize_indexed_resources
  rw [show (OxidizedFinder.mk rs).resources = rs from rfl, h1]
  rfl

/-- Witness for C1 at the records of
test_importer_resources.py::test_serialize_simple. -/
theorem c1_serialize_roundtrip_witness :
    (([c1_my_module, c1_module_b].map (·.name)).Nodup ∧
      (∀ r ∈ [c1_my_module, c1_module_b], r.name ≠ []) ∧
      ([c1_my_module, c1_module_b] : List OxidizedResource).length < 4294967296 ∧
      (∀ r ∈ [c1_my_module, c1_module_b], r.name.length < 4294967296) ∧
      totalPayload [c1_my_module, c1_module_b] < 4294967296) ∧
    (index_bytes (serializeRecords [c1_my_module, c1_module_b]) =
      .ok (sortByName [c1_my_module, c1_module_b]) ∧
    (sortByName [c1_my_module, c1_module_b]).Perm [c1_my_module, c1_module_b] ∧
    loadFinder (OxidizedFinder.serialize_indexed_resources ⟨[c1_my_module, c1_module_b]⟩) =
      .ok ⟨sortByName [c1_my_module, c1_module_b]⟩) :=
  ⟨⟨by decide, by decide, by decide, by decide, by decide⟩,
    c1_serialize_roundtrip [c1_my_module, c1_module_b]
      (by decide) (by decide) (by decide) (by decide) (by decide)⟩

/-- Claim C2: the 16-byte buffer "pyembed" ++ 0x03 ++ two zero u32 fields is
accepted by the index reader and yields zero records; a finder loaded from
it reports empty indexed_resources and null find_spec for every name. -/
theorem c2_empty_index :
    index_bytes emptyIndexBytes = .ok [] ∧
    loadFinder emptyIndexBytes = .ok ⟨[]⟩ ∧
    (∀ name : Bytes, OxidizedFinder.find_spec ⟨[]⟩ name = none) ∧
    OxidizedFinder.indexed_resources ⟨[]⟩ = [] :=
  ⟨by decide, by decide, fun _ => rfl, rfl⟩

/-- Claim C3: every buffer shorter than the fixed 8-byte header fails with a
short-buffer error stating the expected count 8, and every buffer of at
least 8 bytes whose leading 7 bytes are not the magic fails with an
unrecognized-format error. -/
theorem c3_reader_errors :
    (∀ buf : Bytes, buf.length < 8 → index_bytes buf = .error (.shortBuffer 8)) ∧
    (∀ buf : Bytes, 8 ≤ buf.length → buf.take 7 ≠ indexMagic →
      index_bytes buf = .error .unrecognizedFormat) := by
  constructor
  · intro buf h
    unfold index_bytes
    rw [if_pos h]
  · intro buf h8 hmagic
    unfold index_bytes
    rw [if_neg (by omega), if_pos hmagic]

/-- Witness for C3 at the buffers of
test_importer_construction.py::test_resources_no_magic (b"foo") and
test_resources_bad_magic (0xdeadbeef 0xaaaaaaaa). -/
theorem c3_reader_errors_witness :
    (([102, 111, 111] : Bytes).length < 8 ∧
      index_bytes [102, 111, 111] = .error (.shortBuffer 8)) ∧
    (8 ≤ ([222, 173, 190, 239, 170, 170, 170, 170] : Bytes).length ∧
      ([222, 173, 190, 239, 170, 170, 170, 170] : Bytes).take 7 ≠ indexMagic ∧
      index_bytes [222, 173, 190, 239, 170, 170, 170, 170] = .error .unrecognizedFormat) :=
  ⟨⟨by decide, c3_reader_errors.1 _ (by decide)⟩,
    ⟨by decide, by decide, c3_reader_errors.2 _ (by decide) (by decide)⟩⟩

/-- Claim C4 counterexample: on a sub-finder with empty package prefix over
an empty parent index, the name "a" is an immediate child of the prefix yet
find_spec returns null (the name is not indexed), as exercised by
test_importer_path_entry_finder.py::test_empty_finder_abs_str — so
find_spec does not return a spec for every immediate child. -/
theorem c4_sub_finder_counterexample :
    isImmediateChild [] [97] = true ∧
    OxidizedPathEntryFinder.find_spec ⟨⟨[]⟩, []⟩ [97] = none := by decide

/-- Claim C4 (amended): a path-entry sub-finder's find_spec returns a
non-null spec iff the name is indexed in the parent finder AND is an
immediate child of the resolved package prefix (names equal to the prefix,
deeper descendants and names outside the scope yield null), and
iter_modules enumerates exactly the indexed immediate children. -/
theorem c4_sub_finder_scope (pef : OxidizedPathEntryFinder) (name : Bytes) :
    ((pef.find_spec name).isSome =
      ((findRecord pef.finder name).isSome && isImmediateChild pef.pkg name)) ∧
    (∀ entry : Bytes × Bool, entry ∈ pef.iter_modules ↔
      ∃ r, r ∈ pef.finder.resources ∧ isImmediateChild pef.pkg r.name = true ∧
        entry = (r.name, r.is_package)) := by
  constructor
  · by_cases h : isImmediateChild pef.pkg name = true
    · simp [OxidizedPathEntryFinder.find_spec, OxidizedFinder.find_spec, h]
    · rw [Bool.not_eq_true] at h
      simp [OxidizedPathEntryFinder.find_spec, h]
  · intro entry
    unfold OxidizedPathEntryFinder.iter_modules
    rw [List.mem_map]
    constructor
    · rintro ⟨r, hr, heq⟩
      rcases List.mem_filter.mp hr with ⟨hmem, hchild⟩
      exact ⟨r, hmem, hchild, heq.symm⟩
    · rintro ⟨r, hmem, hchild, heq⟩
      exact ⟨r, List.mem_filter.mpr ⟨hmem, hchild⟩, heq.symm⟩

/-- Claim C5 counterexample: a byte-sequence argument to path_hook is
accepted and a sub-finder is returned (base "/exe", argument b"/exe/on",
package prefix "on"), as the tests
test_find_spec_nested_rel_bytes / test_find_spec_top_level_abs_bytes
exercise — bytes arguments do not fail with a type error. -/
theorem c5_path_hook_bytes_accepted :
    OxidizedFinder.path_hook ⟨[]⟩ [47, 101, 120, 101]
      (.pyBytes [47, 101, 120, 101, 47, 111, 110]) =
      .ok ⟨⟨[]⟩, [111, 110]⟩ := by decide

/-- Claim C5 (amended): path_hook accepts str, bytes and os.PathLike
arguments alike (bytes and path-like convert exactly as the equal str
does); only arguments of other types (e.g. an int) fail, with a plain type
error. -/
theorem c5_path_hook_arg_types (f : OxidizedFinder) (base s : Bytes) :
    OxidizedFinder.path_hook f base (.pyBytes s) =
      OxidizedFinder.path_hook f base (.pyStr s) ∧
    OxidizedFinder.path_hook f base (.pyPathLike s) =
      OxidizedFinder.path_hook f base (.pyStr s) ∧
    (∀ n : Nat, OxidizedFinder.path_hook f base (.pyInt n) = .error .typeError) :=
  ⟨rfl, rfl, fun _ => rfl⟩

/-- Claim C6 counterexample: the declared name "my-package" normalizes to
"my_package" (underscore), not to "my-package" as the claim's
runs-to-"-" rule would produce, as asserted by
test_importer_metadata.py::test_normalized_name. -/
theorem c6_normalization_counterexample :
    normalized_name [109, 121, 45, 112, 97, 99, 107, 97, 103, 101] =
      [109, 121, 95, 112, 97, 99, 107, 97, 103, 101] ∧
    claimNormalizedName [109, 121, 45, 112, 97, 99, 107, 97, 103, 101] ≠
      normalized_name [109, 121, 45, 112, 97, 99, 107, 97, 103, 101] := by decide

/-- Claim C6 (amended): distribution-name normalization lowercases and
replaces every run of [-_.]+ with a single "_" (underscore); the
find_distributions name filter matches exactly when both sides normalize
equal, and matching is insensitive to the case of the filter. -/
theorem c6_normalization :
    (∀ s : Bytes, normalized_name s = underscoreNormAux false s) ∧
    (∀ d fl : Bytes, distMatchesFilter d fl = true ↔
      underscoreNormAux false d = underscoreNormAux false fl) ∧
    (∀ d fl : Bytes, distMatchesFilter d (lowerBytes fl) = distMatchesFilter d fl) := by
  refine ⟨normalized_name_underscore, ?_, ?_⟩
  · intro d fl
    unfold distMatchesFilter
    rw [beq_iff_eq, normalized_name_underscore, normalized_name_underscore]
  · intro d fl
    unfold distMatchesFilter
    rw [normalized_name_underscore, normalized_name_underscore,
      normalized_name_underscore, underscoreNorm_lowerBytes]

/-- Claim C7 counterexample: on the source "\t# coding: latin-1\nx = 1\n"
the compiler's RE_CODING (which allows leading [ \t\f]* whitespace before
"#") detects latin-1, while the claim's pattern (no leading-whitespace
allowance) would fall through to UTF-8 — the stated pattern mis-describes
the code. -/
theorem c7_encoding_counterexample :
    (detectSourceEncoding c7_source).1 = [108, 97, 116, 105, 110, 45, 49] ∧
    claimDetectSourceEncoding c7_source ≠ detectSourceEncoding c7_source := by decide

/-- Claim C7 (amended): for every source byte sequence, the bytecode
compiler decodes as UTF-8 with the BOM stripped when the source starts
with the UTF-8 BOM (regardless of any coding declaration); otherwise the
first of the first two lines matching
^[ \t\f]*#.*?coding[:=][ \t]*([-_.a-zA-Z0-9]+) gives the encoding;
otherwise UTF-8. -/
theorem c7_encoding_detection (source : Bytes) :
    detectSourceEncoding source = amendedDetectSourceEncoding source := rfl

/-- Claim C8 counterexample: a reader for a package holding exactly
"resource.txt" fails with FileNotFoundError on is_resource("missing")
rather than returning false, as asserted by
test_importer_resource_reading.py::test_top_level_package. -/
theorem c8_is_resource_counterexample :
    OxidizedResourceReader.is_resource
      ⟨[([114, 101, 115, 111, 117, 114, 99, 101, 46, 116, 120, 116],
         [109, 121, 32, 114, 101, 115, 111, 117, 114, 99, 101])]⟩
      [109, 105, 115, 115, 105, 110, 103] = .error .fileNotFoundError ∧
    (Except.error ResourceReadError.fileNotFoundError ≠
      (Except.ok false : Except ResourceReadError Bool)) := by decide

/-- Claim C8 (amended): the reader's is_resource returns true iff the name
is an exact match of a resource in the package, and fails with
FileNotFoundError (never returning false) when no resource of that name
exists. -/
theorem c8_is_resource (rdr : OxidizedResourceReader) (name : Bytes) :
    rdr.is_resource name =
      (if name ∈ rdr.entries.map Prod.fst then .ok true
       else .error .fileNotFoundError) ∧
    rdr.is_resource name ≠ .ok false := by
  constructor
  · unfold OxidizedResourceReader.is_resource
    by_cases h : name ∈ rdr.entries.map Prod.fst
    · rw [if_pos ((anyBeq_iff_mem_map rdr.entries name).mpr h), if_pos h]
    · rw [if_neg (fun hc => h ((anyBeq_iff_mem_map rdr.entries name).mp hc)), if_neg h]
  · unfold OxidizedResourceReader.is_resource
    split
    · intro h
      cases h
    · intro h
      cases h

/-- Claim C9 counterexample: a newly constructed OxidizedResource has the
EMPTY name "" (and flavor "none"), as asserted by
test_importer_resources.py::test_resource_constructor — it does not satisfy
the non-empty-name invariant. -/
theorem c9_new_record_empty_name :
    OxidizedResource.new.name = [] ∧ OxidizedResource.new.flavor = .none :=
  ⟨rfl, rfl⟩

/-- Claim C9 (amended): the non-empty unique-name invariant holds of every
buffer the index reader accepts (the record names returned are unique and
non-empty); a freshly constructed record, by contrast, starts with the
empty name until one is assigned. -/
theorem c9_reader_names_unique_nonempty (buf : Bytes) (recs : List OxidizedResource)
    (h : index_bytes buf = .ok recs) :
    (∀ r ∈ recs, r.name ≠ []) ∧ (recs.map (·.name)).Nodup := by
  have hv := index_bytes_names h
  unfold validNames at hv
  rw [Bool.and_eq_true] at hv
  constructor
  · intro r hr hcon
    have hall := (List.all_eq_true.mp hv.1) r.name (List.mem_map.mpr ⟨r, hr, rfl⟩)
    rw [hcon] at hall
    exact absurd hall (by decide)
  · exact strictSorted_nodup _ hv.2

/-- Witness for C9 at a serialized two-record buffer. -/
theorem c9_reader_names_witness :
    index_bytes c9_buffer = .ok [c9_rec_a, c9_rec_b] ∧
    ((∀ r ∈ [c9_rec_a, c9_rec_b], r.name ≠ []) ∧
      (([c9_rec_a, c9_rec_b].map (·.name)).Nodup)) :=
  ⟨by decide, c9_reader_names_unique_nonempty c9_buffer [c9_rec_a, c9_rec_b] (by decide)⟩

/-- Claim C10: a Finder constructed with no resources data is pre-populated
with the host interpreter's built-in and frozen modules: its
indexed_resources is non-empty and contains a record for _io with flavor
builtin and every payload field absent, and a record for _frozen_importlib
with flavor frozen. -/
theorem c10_new_finder_builtins (host : HostInterpreter)
    (hb : [95, 105, 111] ∈ host.builtin_module_names)
    (hf : [95, 102, 114, 111, 122, 101, 110, 95, 105, 109, 112, 111, 114, 116, 108, 105, 98] ∈
      host.frozen_module_names) :
    (OxidizedFinder.new host).indexed_resources ≠ [] ∧
    (∃ r ∈ (OxidizedFinder.new host).indexed_resources,
      r.name = [95, 105, 111] ∧ r.flavor = .builtin ∧ r.is_package = false ∧
      r.is_namespace_package = false ∧ r.in_memory_source = none ∧
      r.in_memory_bytecode = none ∧ r.in_memory_bytecode_opt1 = none ∧
      r.in_memory_bytecode_opt2 = none ∧
      r.in_memory_extension_module_shared_library = none ∧
      r.in_memory_shared_library = none ∧ r.relative_path_module_source = none ∧
      r.relative_path_module_bytecode = none) ∧
    (∃ r ∈ (OxidizedFinder.new host).indexed_resources,
      r.name = [95, 102, 114, 111, 122, 101, 110, 95, 105, 109, 112, 111, 114, 116, 108,
        105, 98] ∧ r.flavor = .frozen) := by
  have hmem1 : builtinRecord [95, 105, 111] ∈ (OxidizedFinder.new host).indexed_resources :=
    List.mem_append_left _ (List.mem_map.mpr ⟨_, hb, rfl⟩)
  have hmem2 : frozenRecord
      [95, 102, 114, 111, 122, 101, 110, 95, 105, 109, 112, 111, 114, 116, 108, 105, 98] ∈
      (OxidizedFinder.new host).indexed_resources :=
    List.mem_append_right _ (List.mem_map.mpr ⟨_, hf, rfl⟩)
  refine ⟨List.ne_nil_of_mem hmem1, ⟨_, hmem1, ?_⟩, ⟨_, hmem2, rfl, rfl⟩⟩
  exact ⟨rfl, rfl, rfl, rfl, rfl, rfl, rfl, rfl, rfl, rfl, rfl, rfl⟩

/-- Witness for C10 at a host table holding exactly _io and
_frozen_importlib. -/
theorem c10_new_finder_builtins_witness :
    ([95, 105, 111] ∈ (HostInterpreter.mk [[95, 105, 111]]
      [[95, 102, 114, 111, 122, 101, 110, 95, 105, 109, 112, 111, 114, 116, 108, 105,
        98]]).builtin_module_names) ∧
    ((OxidizedFinder.new (HostInterpreter.mk [[95, 105, 111]]
      [[95, 102, 114, 111, 122, 101, 110, 95, 105, 109, 112, 111, 114, 116, 108, 105,
        98]])).indexed_resources ≠ []) := by
  refine ⟨by decide, ?_⟩
  exact (c10_new_finder_builtins _ (by decide) (by decide)).1

end PyOxidizer

